import Mathlib

/-!
Shallow embedding of the ETS grid-search / walk-forward-validation engine of
`py-timeseries-ets-california-female-births.ipynb`.

Data values (Python floats) are modelled as rationals `ℚ`; the root-mean-square
error, which applies `math.sqrt`, lands in `ℝ`.  The forecaster
`exp_smoothing_forecast` wraps the external `statsmodels` library, so throughout
the engine it is an abstract parameter `List ℚ → ETSCfg → Except E ℚ`: a
function of the history and the configuration that either returns a one-step
forecast or raises.  Python exceptions are modelled with `Except`.
-/

namespace ETSModel

/-- Python slice `data[:j]` for an integer `j` (step 1): a negative `j` counts
from the end and clamps at 0. -/
def pyTake {α : Type} (data : List α) (j : Int) : List α :=
  if j < 0 then data.take (data.length - min data.length j.natAbs)
  else data.take j.toNat

/-- Python slice `data[i:]` for an integer `i` (step 1): a negative `i` counts
from the end and clamps at 0. -/
def pyDrop {α : Type} (data : List α) (i : Int) : List α :=
  if i < 0 then data.drop (data.length - min data.length i.natAbs)
  else data.drop i.toNat

/-- `train_test_split(data, n_test)`: `return data[:-n_test], data[-n_test:]`.
Note Python's `-0 == 0`, so `n_test = 0` yields slices `data[:0]` and
`data[0:]`. -/
def train_test_split {α : Type} (data : List α) (n_test : Nat) : List α × List α :=
  (pyTake data (-(n_test : Int)), pyDrop data (-(n_test : Int)))

/-- One candidate configuration, the Python list `cfg = [t,d,s,p,b,r]`:
trend (`'add' | 'mul' | None`), damped, seasonal, seasonal periods,
Box-Cox, remove-bias. -/
structure ETSCfg where
  t : Option String
  d : Bool
  s : Option String
  p : Option Nat
  b : Bool
  r : Bool
deriving DecidableEq

/-- A single-quote character, used by Python `str` on strings. -/
def sq : String := String.singleton (Char.ofNat 39)

/-- Python `str` of `'add' | 'mul' | None`. -/
def pyStrOptStr : Option String → String
  | some s => sq ++ s ++ sq
  | none => "None"

/-- Python `str` of a bool: `True` / `False`. -/
def pyStrBool : Bool → String
  | true => "True"
  | false => "False"

/-- Python `str` of an optional int: the numeral or `None`. -/
def pyStrOptNat : Option Nat → String
  | some n => toString n
  | none => "None"

/-- `key = str(cfg)` in `score_model`: the canonical text serialization of a
configuration, e.g. `['add', True, None, None, True, False]`. -/
def ETSCfg.key (c : ETSCfg) : String :=
  "[" ++ pyStrOptStr c.t ++ ", " ++ pyStrBool c.d ++ ", " ++ pyStrOptStr c.s
    ++ ", " ++ pyStrOptNat c.p ++ ", " ++ pyStrBool c.b ++ ", " ++ pyStrBool c.r ++ "]"

/-- `sklearn.metrics.mean_squared_error(actual, predicted)`: the mean of the
squared differences. -/
def mean_squared_error (actual predicted : List ℚ) : ℚ :=
  (List.zipWith (fun a p => (a - p) ^ 2) actual predicted).sum / actual.length

/-- `measure_rmse(actual, predicted)`:
`return math.sqrt(mean_squared_error(actual, predicted))`. -/
noncomputable def measure_rmse (actual predicted : List ℚ) : ℝ :=
  Real.sqrt (mean_squared_error actual predicted)

section Engine

/- `exp_smoothing_forecast(history, config)` fits a `statsmodels`
`ExponentialSmoothing` model and returns a one-step forecast; the library call
may raise.  It is external code, held abstract as the parameter
`exp_smoothing_forecast` below. -/
variable {E : Type} (exp_smoothing_forecast : List ℚ → ETSCfg → Except E ℚ)

/-- The loop of `walk_forward_validation`:
`for i in range(len(test)):` fit and forecast on `history`, append `yhat` to
`predictions`, append the true observation `test[i]` to `history`.  Returns
the final `(predictions, history)`; a forecaster exception aborts the loop. -/
def wf_loop (cfg : ETSCfg) (history test predictions : List ℚ) :
    Except E (List ℚ × List ℚ) :=
  match test with
  | [] => .ok (predictions, history)
  | obs :: rest =>
    match exp_smoothing_forecast history cfg with
    | .error e => .error e
    | .ok yhat => wf_loop cfg (history ++ [obs]) rest (predictions ++ [yhat])

/-- `walk_forward_validation(data, n_test, cfg)`: split, seed `history` with a
fresh copy of `train` (`history = [x for x in train]`, value-equal to `train`),
run the loop, and return `measure_rmse(test, predictions)`. -/
noncomputable def walk_forward_validation (data : List ℚ) (n_test : Nat)
    (cfg : ETSCfg) : Except E ℝ :=
  let (train, test) := train_test_split data n_test
  let history := train
  match wf_loop exp_smoothing_forecast cfg history test [] with
  | .error e => .error e
  | .ok (predictions, _) => .ok (measure_rmse test predictions)

/-- `score_model(data, n_test, cfg, debug)`: with `debug` the evaluation runs
bare and any exception propagates; otherwise a `try/except` converts any
exception into `result = None`.  Returns `(key, result)`. -/
noncomputable def score_model (data : List ℚ) (n_test : Nat) (cfg : ETSCfg)
    (debug : Bool) : Except E (String × Option ℝ) :=
  let key := cfg.key
  if debug then
    match walk_forward_validation exp_smoothing_forecast data n_test cfg with
    | .error e => .error e
    | .ok result => .ok (key, some result)
  else
    match walk_forward_validation exp_smoothing_forecast data n_test cfg with
    | .error _ => .ok (key, none)
    | .ok result => .ok (key, some result)

/-- Total projection of the non-debug `score_model` call made by `grid_search`
(`score_model(data, n_test, cfg)` with the default `debug=False`).  The
`.error` branch is dead code: `score_model_false_ne_error` proves the non-debug
mode never raises. -/
noncomputable def score_model_run (data : List ℚ) (n_test : Nat) (cfg : ETSCfg) :
    String × Option ℝ :=
  match score_model exp_smoothing_forecast data n_test cfg false with
  | .ok r => r
  | .error _ => (cfg.key, none)

/-- Modelled from the spec: the `joblib` `Parallel(n_jobs=cpu_count(),
backend='multiprocessing')` executor, which is external library code.  Workers
pick tasks in an arbitrary completion order `sched` (a scheduling of task
indices); each task is an independent pure call; results are collected back in
task-submission order, as `joblib` guarantees. -/
def joblib_parallel_map {α β : Type} (f : α → β) (tasks : List α)
    (sched : List Nat) : List β :=
  let results := sched.filterMap (fun i => (tasks[i]?).map (fun t => (i, f t)))
  (List.range tasks.length).filterMap (fun i => List.lookup i results)

/-- The sort key of `scores.sort(key=lambda tup: tup[1])`, comparing the error
components.  In the source every surviving error is a float; comparing `None`
would raise in Python but is unreachable, and the `none` branches here are an
arbitrary total completion. -/
noncomputable def scoreLE (a b : String × Option ℝ) : Bool :=
  match a.2, b.2 with
  | some x, some y => decide (x ≤ y)
  | none, _ => true
  | some _, none => false

/-- `grid_search(data, cfg_list, n_test, parallel)`: score every configuration
(fanned out over `sched` when `parallel`, else in enumeration order), drop the
`None` results, and stable-sort ascending by error (Python's Timsort). -/
noncomputable def grid_search (data : List ℚ) (cfg_list : List ETSCfg)
    (n_test : Nat) (parallel : Bool) (sched : List Nat) :
    List (String × Option ℝ) :=
  let scores :=
    if parallel then
      joblib_parallel_map (score_model_run exp_smoothing_forecast data n_test)
        cfg_list sched
    else
      cfg_list.map (score_model_run exp_smoothing_forecast data n_test)
  let scores := scores.filter (fun r => r.2.isSome)
  scores.mergeSort scoreLE

end Engine

/-- `t_params = ['add', 'mul', None]` in `exp_smoothing_configs`. -/
def t_params : List (Option String) := [some "add", some "mul", none]

/-- `d_params = [True, False]`. -/
def d_params : List Bool := [true, false]

/-- `s_params = ['add', 'mul', None]`. -/
def s_params : List (Option String) := [some "add", some "mul", none]

/-- `b_params = [True, False]`. -/
def b_params : List Bool := [true, false]

/-- `r_params = [True, False]`. -/
def r_params : List Bool := [true, false]

/-- `exp_smoothing_configs(seasonal=[None])`: the full Cartesian product of the
six hyperparameter domains in nested loop order
trend → damped → seasonal → period → transform → bias
(`p_params = seasonal`, the caller-supplied domain). -/
def exp_smoothing_configs (seasonal : List (Option Nat)) : List ETSCfg :=
  t_params.flatMap fun t =>
    d_params.flatMap fun d =>
      s_params.flatMap fun s =>
        seasonal.flatMap fun p =>
          b_params.flatMap fun b =>
            r_params.map fun r => ⟨t, d, s, p, b, r⟩

/-!
Explicit-state embedding.  Python lists are mutable heap objects; to settle the
frame claim the same functions are embedded again with an explicit heap of
list cells.  Addresses are indices into the heap; `List.set` out of range is a
no-op, matching the fact that the code only ever writes cells it allocated.
-/

/-- A heap cell: either a list of observations (Python list of floats) or the
candidate-configuration list. -/
inductive Cell where
  | nums (xs : List ℚ)
  | cfgs (cs : List ETSCfg)
deriving DecidableEq

/-- The heap: cell `a` is `h[a]`; allocation appends. -/
abbrev Heap := List Cell

/-- Read the number-list cell at `a` (default `[]` for a dangling or
wrongly-typed reference; unreachable in the modelled runs). -/
def readNums (h : Heap) (a : Nat) : List ℚ :=
  match h[a]? with
  | some (.nums xs) => xs
  | _ => []

/-- Read the configuration-list cell at `a`. -/
def readCfgs (h : Heap) (a : Nat) : List ETSCfg :=
  match h[a]? with
  | some (.cfgs cs) => cs
  | _ => []

/-- Python `lst.append(x)` on the list object at address `a`. -/
def pushNum (h : Heap) (a : Nat) (x : ℚ) : Heap :=
  h.set a (.nums (readNums h a ++ [x]))

section EngineSt

variable {E : Type} (exp_smoothing_forecast : List ℚ → ETSCfg → Except E ℚ)

/-- The loop of `walk_forward_validation`, explicit-state version: each step
appends `yhat` to the predictions object at `predRef` and the true observation
to the history object at `histRef`. -/
def wf_loop_st (cfg : ETSCfg) (test : List ℚ) (histRef predRef : Nat)
    (h : Heap) : Except E Unit × Heap :=
  match test with
  | [] => (.ok (), h)
  | obs :: rest =>
    match exp_smoothing_forecast (readNums h histRef) cfg with
    | .error e => (.error e, h)
    | .ok yhat =>
      wf_loop_st cfg rest histRef predRef (pushNum (pushNum h predRef yhat) histRef obs)

/-- `walk_forward_validation`, explicit-state version: allocates the
`predictions` object, splits the series read from `dataRef`, allocates
`history` as a fresh copy of `train`, runs the loop, and computes the error
from the predictions object. -/
noncomputable def walk_forward_validation_st (h : Heap) (dataRef : Nat) (n_test : Nat)
    (cfg : ETSCfg) : Except E ℝ × Heap :=
  let data := readNums h dataRef
  let h1 := h ++ [Cell.nums []]
  let predRef := h.length
  let (train, test) := train_test_split data n_test
  let h2 := h1 ++ [Cell.nums train]
  let histRef := h1.length
  match wf_loop_st exp_smoothing_forecast cfg test histRef predRef h2 with
  | (.error e, h3) => (.error e, h3)
  | (.ok _, h3) => (.ok (measure_rmse test (readNums h3 predRef)), h3)

/-- `score_model`, explicit-state version. -/
noncomputable def score_model_st (h : Heap) (dataRef : Nat) (n_test : Nat) (cfg : ETSCfg)
    (debug : Bool) : Except E (String × Option ℝ) × Heap :=
  let key := cfg.key
  if debug then
    match walk_forward_validation_st exp_smoothing_forecast h dataRef n_test cfg with
    | (.error e, h1) => (.error e, h1)
    | (.ok result, h1) => (.ok (key, some result), h1)
  else
    match walk_forward_validation_st exp_smoothing_forecast h dataRef n_test cfg with
    | (.error _, h1) => (.ok (key, none), h1)
    | (.ok result, h1) => (.ok (key, some result), h1)

/-- The sequential scoring loop of `grid_search`, explicit-state version,
threading the caller's heap through the non-debug `score_model` calls.  The
`.error` fallback is dead code (non-debug `score_model` never raises). -/
noncomputable def scores_st (dataRef n_test : Nat) :
    List ETSCfg → Heap → List (String × Option ℝ) × Heap
  | [], h => ([], h)
  | cfg :: rest, h =>
    match score_model_st exp_smoothing_forecast h dataRef n_test cfg false with
    | (.ok r, h1) =>
      let (rs, h2) := scores_st dataRef n_test rest h1
      (r :: rs, h2)
    | (.error _, h1) =>
      let (rs, h2) := scores_st dataRef n_test rest h1
      ((cfg.key, none) :: rs, h2)

/-- `grid_search`, explicit-state version.  In the parallel branch each
`multiprocessing` worker scores one candidate on its own copy of the caller's
heap; the worker heaps are discarded at the join, so the caller's heap is
returned unchanged. -/
noncomputable def grid_search_st (h : Heap) (dataRef cfgListRef : Nat) (n_test : Nat)
    (parallel : Bool) : List (String × Option ℝ) × Heap :=
  let cfg_list := readCfgs h cfgListRef
  let (scores, h1) :=
    if parallel then
      (cfg_list.map (fun cfg =>
        match score_model_st exp_smoothing_forecast h dataRef n_test cfg false with
        | (.ok r, _) => r
        | (.error _, _) => (cfg.key, none)), h)
    else
      scores_st exp_smoothing_forecast dataRef n_test cfg_list h
  let scores := scores.filter (fun r => r.2.isSome)
  (scores.mergeSort scoreLE, h1)

end EngineSt

/-!
Concrete instances used to evaluate the development on closed inputs: a
forecaster that always returns 0, a forecaster that always raises, and a
sample configuration.
-/

/-- A forecaster that always succeeds with forecast 0. -/
def fzero : List ℚ → ETSCfg → Except Unit ℚ := fun _ _ => .ok 0

/-- A forecaster that always raises. -/
def ffail : List ℚ → ETSCfg → Except Unit ℚ := fun _ _ => .error ()

/-- A sample configuration `[None, False, None, None, False, False]`. -/
def c0 : ETSCfg := ⟨none, false, none, none, false, false⟩

/-!  Helper lemmas. -/

theorem train_test_split_zero {α : Type} (data : List α) :
    train_test_split data 0 = ([], data) := by
  simp [train_test_split, pyTake, pyDrop]

theorem train_test_split_pos {α : Type} (data : List α) (n : Nat) (h0 : 0 < n) :
    train_test_split data n =
      (data.take (data.length - min data.length n),
       data.drop (data.length - min data.length n)) := by
  have hn : -(n : Int) < 0 := by omega
  simp only [train_test_split, pyTake, pyDrop, if_pos hn, Int.natAbs_neg,
    Int.natAbs_ofNat]

theorem score_model_false_eq {E : Type} (f : List ℚ → ETSCfg → Except E ℚ)
    (data : List ℚ) (n_test : Nat) (cfg : ETSCfg) :
    score_model f data n_test cfg false =
      .ok (cfg.key, (walk_forward_validation f data n_test cfg).toOption) := by
  unfold score_model
  cases h : walk_forward_validation f data n_test cfg <;>
    simp [Except.toOption, h]

theorem score_model_false_ne_error {E : Type} (f : List ℚ → ETSCfg → Except E ℚ)
    (data : List ℚ) (n_test : Nat) (cfg : ETSCfg) (e : E) :
    score_model f data n_test cfg false ≠ .error e := by
  rw [score_model_false_eq]
  exact fun h => Except.noConfusion h

theorem score_model_run_eq {E : Type} (f : List ℚ → ETSCfg → Except E ℚ)
    (data : List ℚ) (n_test : Nat) (cfg : ETSCfg) :
    score_model_run f data n_test cfg =
      (cfg.key, (walk_forward_validation f data n_test cfg).toOption) := by
  unfold score_model_run
  rw [score_model_false_eq]

theorem wf_loop_ok_spec {E : Type} (f : List ℚ → ETSCfg → Except E ℚ)
    (cfg : ETSCfg) :
    ∀ (test history predictions P H : List ℚ),
      wf_loop f cfg history test predictions = .ok (P, H) →
      P.length = predictions.length + test.length ∧ H = history ++ test := by
  intro test
  induction test with
  | nil =>
    intro history predictions P H h
    rw [wf_loop] at h
    cases h
    simp
  | cons obs rest ih =>
    intro history predictions P H h
    rw [wf_loop] at h
    cases hf : f history cfg with
    | error e => rw [hf] at h; exact absurd h (fun hh => Except.noConfusion hh)
    | ok yhat =>
      rw [hf] at h
      obtain ⟨hlen, hH⟩ := ih (history ++ [obs]) (predictions ++ [yhat]) P H h
      constructor
      · simpa [Nat.add_assoc, Nat.add_comm 1 rest.length] using hlen
      · simpa using hH

theorem wf_loop_step {E : Type} (f : List ℚ → ETSCfg → Except E ℚ)
    (cfg : ETSCfg) (train test P : List ℚ) (i : Nat) (hi : i < test.length) :
    wf_loop f cfg (train ++ test.take i) (test.drop i) P =
      match f (train ++ test.take i) cfg with
      | .error e => .error e
      | .ok y =>
        wf_loop f cfg (train ++ test.take (i + 1)) (test.drop (i + 1)) (P ++ [y]) := by
  have hdrop : test.drop i = test[i] :: test.drop (i + 1) :=
    List.drop_eq_getElem_cons hi
  have htake : test.take (i + 1) = test.take i ++ [test[i]] := by
    rw [List.take_succ, List.getElem?_eq_getElem hi]
    rfl
  rw [hdrop, wf_loop]
  cases hf : f (train ++ test.take i) cfg with
  | error e => rfl
  | ok y => rw [htake, ← List.append_assoc]

theorem scoreLE_trans (a b c : String × Option ℝ) :
    scoreLE a b = true → scoreLE b c = true → scoreLE a c = true := by
  rcases a with ⟨ka, ea⟩
  rcases b with ⟨kb, eb⟩
  rcases c with ⟨kc, ec⟩
  cases ea <;> cases eb <;> cases ec <;>
    simp only [scoreLE, decide_eq_true_eq] <;> intro h1 h2 <;> first
      | trivial
      | exact h1.trans h2

theorem scoreLE_total (a b : String × Option ℝ) :
    (scoreLE a b || scoreLE b a) = true := by
  rcases a with ⟨ka, ea⟩
  rcases b with ⟨kb, eb⟩
  cases ea <;> cases eb <;>
    simp only [scoreLE, Bool.or_eq_true, decide_eq_true_eq] <;> first
      | exact Or.inl trivial
      | exact Or.inr trivial
      | exact le_total _ _

theorem lookup_sched_results_none {α β : Type} (tasks : List α) (f : α → β)
    (i : Nat) (hi : tasks[i]? = none) :
    ∀ sched : List Nat,
      List.lookup i
        (sched.filterMap (fun j => (tasks[j]?).map (fun t => (j, f t)))) = none := by
  intro sched
  induction sched with
  | nil => rfl
  | cons j rest ih =>
    cases hj : tasks[j]? with
    | none =>
      rw [List.filterMap_cons_none (by rw [hj]; rfl)]
      exact ih
    | some t =>
      have hij : i ≠ j := fun he => by rw [he, hj] at hi; exact Option.noConfusion hi
      have hb : (i == j) = false := by simpa using hij
      rw [List.filterMap_cons_some (by rw [hj]; rfl)]
      simp only [List.lookup_cons, hb]
      exact ih

theorem lookup_sched_results {α β : Type} (tasks : List α) (f : α → β) :
    ∀ (sched : List Nat) (i : Nat), i ∈ sched →
      List.lookup i
        (sched.filterMap (fun j => (tasks[j]?).map (fun t => (j, f t)))) =
        (tasks[i]?).map f := by
  intro sched
  induction sched with
  | nil => intro i hi; cases hi
  | cons j rest ih =>
    intro i hi
    cases hj : tasks[j]? with
    | none =>
      rw [List.filterMap_cons_none (by rw [hj]; rfl)]
      rcases List.mem_cons.mp hi with rfl | hmem
      · rw [lookup_sched_results_none tasks f i hj rest, hj]
        rfl
      · exact ih i hmem
    | some t =>
      rw [List.filterMap_cons_some (by rw [hj]; rfl)]
      by_cases hij : i = j
      · subst hij
        rw [List.lookup_cons_self, hj]
        rfl
      · have hb : (i == j) = false := by simpa using hij
        simp only [List.lookup_cons, hb]
        rcases List.mem_cons.mp hi with rfl | hmem
        · exact absurd rfl hij
        · exact ih i hmem

theorem range_filterMap_getElem {α β : Type} (f : α → β) :
    ∀ tasks : List α,
      (List.range tasks.length).filterMap (fun i => (tasks[i]?).map f) =
        tasks.map f := by
  intro tasks
  induction tasks with
  | nil => rfl
  | cons a tl ih =>
    rw [List.length_cons, List.range_succ_eq_map]
    simp only [List.filterMap_cons, List.getElem?_cons_zero, Option.map_some']
    rw [List.filterMap_map]
    simp only [Function.comp_def, List.getElem?_cons_succ]
    rw [ih, List.map_cons]

/-- With any completion order that schedules every task exactly once, the
modelled `joblib` executor returns exactly the sequential map in
task-submission order. -/
theorem joblib_parallel_map_perm {α β : Type} (f : α → β) (tasks : List α)
    (sched : List Nat) (h : sched.Perm (List.range tasks.length)) :
    joblib_parallel_map f tasks sched = tasks.map f := by
  unfold joblib_parallel_map
  rw [← range_filterMap_getElem f tasks]
  exact List.filterMap_congr fun i hi =>
    lookup_sched_results tasks f sched i (h.mem_iff.mpr hi)

/-- Both execution modes of `grid_search` reduce to filtering and
stable-sorting the sequential score list. -/
theorem grid_search_eq {E : Type} (f : List ℚ → ETSCfg → Except E ℚ)
    (data : List ℚ) (cfg_list : List ETSCfg) (n_test : Nat) (parallel : Bool)
    (sched : List Nat)
    (hs : parallel = true → sched.Perm (List.range cfg_list.length)) :
    grid_search f data cfg_list n_test parallel sched =
      ((cfg_list.map (score_model_run f data n_test)).filter
        (fun r => r.2.isSome)).mergeSort scoreLE := by
  unfold grid_search
  cases parallel with
  | false => rfl
  | true =>
    rw [if_pos rfl, joblib_parallel_map_perm _ _ _ (hs rfl)]

theorem obind_congr {α β : Type} {o : Option α} {f g : α → Option β}
    (h : ∀ a, f a = g a) : o.bind f = o.bind g := by
  cases o <;> simp [h]

theorem flatMap_length_const {α β : Type} (g : α → List β) (k : Nat)
    (hk : ∀ a, (g a).length = k) :
    ∀ xs : List α, (xs.flatMap g).length = xs.length * k := by
  intro xs
  induction xs with
  | nil => simp
  | cons a tl ih =>
    rw [List.flatMap_cons, List.length_append, hk, ih, List.length_cons]
    ring

theorem flatMap_getElem? {α β : Type} (g : α → List β) (k : Nat)
    (hk : ∀ a, (g a).length = k) :
    ∀ (xs : List α) (i j : Nat), j < k →
      (xs.flatMap g)[i * k + j]? = (xs[i]?).bind (fun a => (g a)[j]?) := by
  intro xs
  induction xs with
  | nil => intro i j hj; simp
  | cons a tl ih =>
    intro i j hj
    rw [List.flatMap_cons]
    cases i with
    | zero =>
      rw [Nat.zero_mul, Nat.zero_add,
        List.getElem?_append_left (by rw [hk]; exact hj)]
      simp
    | succ i2 =>
      rw [Nat.succ_mul]
      have hge : (g a).length ≤ i2 * k + k + j := by rw [hk]; omega
      rw [List.getElem?_append_right hge]
      have harith : i2 * k + k + j - (g a).length = i2 * k + j := by
        rw [hk]; omega
      rw [harith, ih i2 j hj]
      simp

/-!  Heap-model lemmas. -/

theorem pushNum_length (h : Heap) (a : Nat) (x : ℚ) :
    (pushNum h a x).length = h.length := by
  simp [pushNum]

theorem pushNum_getElem?_ne (h : Heap) (a b : Nat) (x : ℚ) (hne : b ≠ a) :
    (pushNum h a x)[b]? = h[b]? := by
  simp [pushNum, List.getElem?_set_ne (fun he => hne he.symm)]

theorem readNums_pushNum_self (h : Heap) (a : Nat) (x : ℚ) (ha : a < h.length) :
    readNums (pushNum h a x) a = readNums h a ++ [x] := by
  simp [readNums, pushNum, List.getElem?_set_self ha]

theorem readNums_pushNum_ne (h : Heap) (a b : Nat) (x : ℚ) (hne : b ≠ a) :
    readNums (pushNum h a x) b = readNums h b := by
  simp [readNums, pushNum_getElem?_ne h a b x hne]

theorem wf_loop_st_length {E : Type} (f : List ℚ → ETSCfg → Except E ℚ)
    (cfg : ETSCfg) :
    ∀ (test : List ℚ) (hr pr : Nat) (h : Heap),
      ((wf_loop_st f cfg test hr pr h).2).length = h.length := by
  intro test
  induction test with
  | nil => intro hr pr h; rfl
  | cons obs rest ih =>
    intro hr pr h
    unfold wf_loop_st
    cases f (readNums h hr) cfg with
    | error e => rfl
    | ok yhat =>
      rw [ih hr pr (pushNum (pushNum h pr yhat) hr obs), pushNum_length,
        pushNum_length]

theorem wf_loop_st_frame {E : Type} (f : List ℚ → ETSCfg → Except E ℚ)
    (cfg : ETSCfg) :
    ∀ (test : List ℚ) (hr pr : Nat) (h : Heap) (b : Nat), b ≠ hr → b ≠ pr →
      ((wf_loop_st f cfg test hr pr h).2)[b]? = h[b]? := by
  intro test
  induction test with
  | nil => intro hr pr h b _ _; rfl
  | cons obs rest ih =>
    intro hr pr h b hbr hbp
    unfold wf_loop_st
    cases f (readNums h hr) cfg with
    | error e => rfl
    | ok yhat =>
      rw [ih hr pr (pushNum (pushNum h pr yhat) hr obs) b hbr hbp,
        pushNum_getElem?_ne _ _ _ _ hbr, pushNum_getElem?_ne _ _ _ _ hbp]

theorem walk_forward_validation_st_frame {E : Type}
    (f : List ℚ → ETSCfg → Except E ℚ) (h : Heap) (dataRef n_test : Nat)
    (cfg : ETSCfg) (b : Nat) (hb : b < h.length) :
    ((walk_forward_validation_st f h dataRef n_test cfg).2)[b]? = h[b]? ∧
    h.length ≤ ((walk_forward_validation_st f h dataRef n_test cfg).2).length := by
  unfold walk_forward_validation_st
  rcases hsp : train_test_split (readNums h dataRef) n_test with ⟨train, test⟩
  simp only [hsp]
  have hfr := wf_loop_st_frame f cfg test (h ++ [Cell.nums []]).length h.length
    (h ++ [Cell.nums []] ++ [Cell.nums train]) b
    (by simp; omega) (by omega)
  have hln := wf_loop_st_length f cfg test (h ++ [Cell.nums []]).length h.length
    (h ++ [Cell.nums []] ++ [Cell.nums train])
  have happ : (h ++ [Cell.nums []] ++ [Cell.nums train])[b]? = h[b]? := by
    rw [List.getElem?_append_left (by simp; omega),
      List.getElem?_append_left hb]
  cases hw : wf_loop_st f cfg test (h ++ [Cell.nums []]).length h.length
      (h ++ [Cell.nums []] ++ [Cell.nums train]) with
  | mk res h3 =>
    rw [hw] at hfr hln
    dsimp only at hfr hln
    cases res with
    | error e =>
      refine ⟨hfr.trans happ, ?_⟩
      rw [hln]
      simp
    | ok u =>
      refine ⟨hfr.trans happ, ?_⟩
      rw [hln]
      simp

theorem score_model_st_frame {E : Type} (f : List ℚ → ETSCfg → Except E ℚ)
    (h : Heap) (dataRef n_test : Nat) (cfg : ETSCfg) (debug : Bool) (b : Nat)
    (hb : b < h.length) :
    ((score_model_st f h dataRef n_test cfg debug).2)[b]? = h[b]? ∧
    h.length ≤ ((score_model_st f h dataRef n_test cfg debug).2).length := by
  unfold score_model_st
  obtain ⟨hfr, hln⟩ :=
    walk_forward_validation_st_frame f h dataRef n_test cfg b hb
  cases hw : walk_forward_validation_st f h dataRef n_test cfg with
  | mk res h1 =>
    rw [hw] at hfr hln
    dsimp only at hfr hln
    cases debug <;> cases res <;> simpa using ⟨hfr, hln⟩

theorem scores_st_frame {E : Type} (f : List ℚ → ETSCfg → Except E ℚ)
    (dataRef n_test : Nat) :
    ∀ (cfgs : List ETSCfg) (h : Heap) (b : Nat), b < h.length →
      ((scores_st f dataRef n_test cfgs h).2)[b]? = h[b]? ∧
      h.length ≤ ((scores_st f dataRef n_test cfgs h).2).length := by
  intro cfgs
  induction cfgs with
  | nil => intro h b hb; exact ⟨rfl, Nat.le_refl _⟩
  | cons cfg rest ih =>
    intro h b hb
    unfold scores_st
    obtain ⟨hfr1, hln1⟩ := score_model_st_frame f h dataRef n_test cfg false b hb
    cases hs : score_model_st f h dataRef n_test cfg false with
    | mk res h1 =>
      rw [hs] at hfr1 hln1
      dsimp only at hfr1 hln1
      obtain ⟨hfr2, hln2⟩ := ih h1 b (Nat.lt_of_lt_of_le hb hln1)
      cases hr : scores_st f dataRef n_test rest h1 with
      | mk rs h2 =>
        rw [hr] at hfr2 hln2
        dsimp only at hfr2 hln2
        cases res <;> simp only [hr] <;>
          exact ⟨hfr2.trans hfr1, Nat.le_trans hln1 hln2⟩

theorem grid_search_st_frame {E : Type} (f : List ℚ → ETSCfg → Except E ℚ)
    (h : Heap) (dataRef cfgListRef n_test : Nat) (parallel : Bool) (b : Nat)
    (hb : b < h.length) :
    ((grid_search_st f h dataRef cfgListRef n_test parallel).2)[b]? = h[b]? := by
  unfold grid_search_st
  cases parallel with
  | true => rfl
  | false =>
    obtain ⟨hfr, _⟩ :=
      scores_st_frame f dataRef n_test (readCfgs h cfgListRef) h b hb
    cases hs : scores_st f dataRef n_test (readCfgs h cfgListRef) h with
    | mk rs h1 =>
      rw [hs] at hfr
      simp only [Bool.false_eq_true, if_false, hs]
      exact hfr

theorem wf_loop_st_spec {E : Type} (f : List ℚ → ETSCfg → Except E ℚ)
    (cfg : ETSCfg) :
    ∀ (test : List ℚ) (h : Heap) (hr pr : Nat),
      hr ≠ pr → hr < h.length → pr < h.length →
      ((wf_loop_st f cfg test hr pr h).1 =
        (wf_loop f cfg (readNums h hr) test (readNums h pr)).map
          (fun _ => ())) ∧
      (∀ P H,
        wf_loop f cfg (readNums h hr) test (readNums h pr) = .ok (P, H) →
        readNums (wf_loop_st f cfg test hr pr h).2 pr = P ∧
        readNums (wf_loop_st f cfg test hr pr h).2 hr = H) := by
  intro test
  induction test with
  | nil =>
    intro h hr pr hne hhr hpr
    refine ⟨rfl, ?_⟩
    intro P H hok
    rw [wf_loop] at hok
    cases hok
    exact ⟨rfl, rfl⟩
  | cons obs rest ih =>
    intro h hr pr hne hhr hpr
    unfold wf_loop_st
    rw [wf_loop]
    cases hf : f (readNums h hr) cfg with
    | error e =>
      refine ⟨rfl, ?_⟩
      intro P H hok
      exact absurd hok (fun hh => Except.noConfusion hh)
    | ok yhat =>
      have hpr2 : pr < (pushNum h pr yhat).length := by
        rw [pushNum_length]; exact hpr
      have hhr3 : hr < (pushNum (pushNum h pr yhat) hr obs).length := by
        rw [pushNum_length, pushNum_length]; exact hhr
      have hpr3 : pr < (pushNum (pushNum h pr yhat) hr obs).length := by
        rw [pushNum_length, pushNum_length]; exact hpr
      have hreadh : readNums (pushNum (pushNum h pr yhat) hr obs) hr =
          readNums h hr ++ [obs] := by
        rw [readNums_pushNum_self _ _ _ (by rw [pushNum_length]; exact hhr),
          readNums_pushNum_ne h pr hr yhat hne]
      have hreadp : readNums (pushNum (pushNum h pr yhat) hr obs) pr =
          readNums h pr ++ [yhat] := by
        rw [readNums_pushNum_ne _ hr pr obs (fun he => hne he.symm),
          readNums_pushNum_self h pr yhat hpr]
      obtain ⟨ih1, ih2⟩ := ih (pushNum (pushNum h pr yhat) hr obs) hr pr hne
        hhr3 hpr3
      rw [hreadh, hreadp] at ih1 ih2
      exact ⟨ih1, ih2⟩

/-- The explicit-state walk-forward evaluation computes exactly the pure one:
its result is the pure `walk_forward_validation` of the series stored at
`dataRef`. -/
theorem walk_forward_validation_st_fst {E : Type}
    (f : List ℚ → ETSCfg → Except E ℚ) (h : Heap) (dataRef n_test : Nat)
    (cfg : ETSCfg) :
    (walk_forward_validation_st f h dataRef n_test cfg).1 =
      walk_forward_validation f (readNums h dataRef) n_test cfg := by
  unfold walk_forward_validation_st walk_forward_validation
  rcases hsp : train_test_split (readNums h dataRef) n_test with ⟨train, test⟩
  simp only [hsp]
  have hreadhist : readNums (h ++ [Cell.nums []] ++ [Cell.nums train])
      (h ++ [Cell.nums []]).length = train := by
    unfold readNums
    rw [List.getElem?_concat_length]
  have hreadpred : readNums (h ++ [Cell.nums []] ++ [Cell.nums train])
      h.length = [] := by
    unfold readNums
    rw [List.getElem?_append_left (by simp),
      List.getElem?_concat_length]
  obtain ⟨hfst, hread⟩ := wf_loop_st_spec f cfg test
    (h ++ [Cell.nums []] ++ [Cell.nums train]) (h ++ [Cell.nums []]).length
    h.length (by simp) (by simp) (by simp)
  rw [hreadhist, hreadpred] at hfst hread
  cases hw : wf_loop f cfg train test [] with
  | error e =>
    rw [hw] at hfst
    cases hst : wf_loop_st f cfg test (h ++ [Cell.nums []]).length h.length
        (h ++ [Cell.nums []] ++ [Cell.nums train]) with
    | mk res h3 =>
      rw [hst] at hfst
      dsimp only [Except.map] at hfst
      cases res with
      | error e2 => cases hfst; rfl
      | ok u => exact absurd hfst (fun hh => Except.noConfusion hh)
  | ok PH =>
    rcases PH with ⟨P, H⟩
    rw [hw] at hfst hread
    obtain ⟨hP, _⟩ := hread P H rfl
    cases hst : wf_loop_st f cfg test (h ++ [Cell.nums []]).length h.length
        (h ++ [Cell.nums []] ++ [Cell.nums train]) with
    | mk res h3 =>
      rw [hst] at hfst hP
      dsimp only [Except.map] at hfst
      cases res with
      | error e2 => exact absurd hfst (fun hh => Except.noConfusion hh)
      | ok u =>
        dsimp only
        rw [hP]

/-!  Claim theorems. -/

/-- C6 counterexample: there is no fail-fast validation and no
`InsufficientDataError` anywhere in the code.  At the concrete input
`data = [1, 1]`, `n_test = 2 = len(data)` (empty train partition) and a
forecaster that always succeeds with 0, the search does not fail before
evaluation: it proceeds into evaluation, completes it, and returns a
non-empty ranked list containing the evaluated score — refuting the claim
that the search fails fast before any evaluation begins. -/
theorem claim_C6_counterexample :
    grid_search fzero [1, 1] [c0] 2 false [] =
      [(c0.key, some (measure_rmse [1, 1] [0, 0]))] := by
  have h : grid_search fzero [1, 1] [c0] 2 false [] =
      ([(c0.key, some (measure_rmse [1, 1] [0, 0]))] :
        List (String × Option ℝ)).mergeSort scoreLE := rfl
  rw [h, List.mergeSort_singleton]

/-- C6 amended: when `n_test ≥ length(series)` no validation error is raised
and no fail-fast path exists; `train_test_split` silently returns the empty
train partition and the whole series as test, and the search proceeds into
evaluation of every candidate, with any per-candidate exception folded into
an absent result by the non-debug `score_model`. -/
theorem claim_C6_amended {E : Type} (f : List ℚ → ETSCfg → Except E ℚ)
    (data : List ℚ) (cfgs : List ETSCfg) (n_test : Nat)
    (h : data.length ≤ n_test) :
    train_test_split data n_test = ([], data) ∧
    ∀ cfg ∈ cfgs, score_model f data n_test cfg false =
      .ok (cfg.key, (walk_forward_validation f data n_test cfg).toOption) := by
  constructor
  · cases Nat.eq_zero_or_pos n_test with
    | inl h0 =>
      subst h0
      have hdata : data = [] := List.eq_nil_of_length_eq_zero (by omega)
      rw [hdata, train_test_split_zero]
    | inr hpos =>
      rw [train_test_split_pos data n_test hpos,
        Nat.min_eq_left h, Nat.sub_self]
      simp
  · intro cfg _
    exact score_model_false_eq f data n_test cfg

/-- Witness for the amended C6 at `data = [1, 2]`, `n_test = 2`. -/
theorem claim_C6_amended_witness :
    ([1, 2] : List ℚ).length ≤ 2 ∧
    (train_test_split ([1, 2] : List ℚ) 2 = ([], [1, 2]) ∧
    ∀ cfg ∈ ([c0] : List ETSCfg), score_model fzero [1, 2] 2 cfg false =
      .ok (cfg.key, (walk_forward_validation fzero [1, 2] 2 cfg).toOption)) :=
  ⟨by decide, claim_C6_amended fzero [1, 2] [c0] 2 (by decide)⟩

/-- C7 counterexample: when every candidate fails there is no distinct
`EmptyResultError` — nothing in the code distinguishes an all-candidates-failed
search from a search over an empty candidate list: with the always-raising
forecaster, `grid_search` over the non-empty candidate list `[c0]` returns
exactly the same value (the plain empty list) as `grid_search` over no
candidates at all. -/
theorem claim_C7_counterexample :
    grid_search ffail [1, 2] [c0] 1 false [] =
      grid_search ffail [1, 2] ([] : List ETSCfg) 1 false [] := by
  have h1 : grid_search ffail [1, 2] [c0] 1 false [] =
      ([] : List (String × Option ℝ)).mergeSort scoreLE := rfl
  have h2 : grid_search ffail [1, 2] ([] : List ETSCfg) 1 false [] =
      ([] : List (String × Option ℝ)).mergeSort scoreLE := rfl
  rw [h1, h2]

/-- C7 amended: no individual candidate failure aborts the batch — the ranked
result always contains exactly one record per candidate whose evaluation
completed — and when every candidate fails the orchestrator returns the plain
empty list (no distinct `EmptyResultError` value exists; emptiness itself is
the only signal to the caller). -/
theorem claim_C7_amended {E : Type} (f : List ℚ → ETSCfg → Except E ℚ)
    (data : List ℚ) (cfgs : List ETSCfg) (n_test : Nat) (parallel : Bool)
    (sched : List Nat)
    (hs : parallel = true → sched.Perm (List.range cfgs.length)) :
    ((∀ cfg ∈ cfgs, ∃ e : E,
        walk_forward_validation f data n_test cfg = .error e) →
      grid_search f data cfgs n_test parallel sched = []) ∧
    (grid_search f data cfgs n_test parallel sched).length =
      (cfgs.filter (fun cfg =>
        (walk_forward_validation f data n_test cfg).toOption.isSome)).length := by
  rw [grid_search_eq f data cfgs n_test parallel sched hs]
  constructor
  · intro hall
    have hnil : (cfgs.map (score_model_run f data n_test)).filter
        (fun r => r.2.isSome) = [] := by
      rw [List.filter_eq_nil_iff]
      intro r hr
      rcases List.mem_map.mp hr with ⟨cfg, hcfg, rfl⟩
      rcases hall cfg hcfg with ⟨e, he⟩
      rw [score_model_run_eq, he]
      simp [Except.toOption]
    rw [hnil]
    exact List.mergeSort_nil
  · rw [List.length_mergeSort, ← List.countP_eq_length_filter,
      ← List.countP_eq_length_filter, List.countP_map]
    apply List.countP_congr
    intro cfg _
    rw [Function.comp_apply, score_model_run_eq]

/-- Witness for the amended C7: with the always-raising forecaster every
candidate fails, the all-fail hypothesis is dischargeable, and the ranked
result is empty with length equal to the number of successful candidates. -/
theorem claim_C7_amended_witness :
    (false = true → ([] : List Nat).Perm (List.range ([c0] : List ETSCfg).length)) ∧
    (((∀ cfg ∈ ([c0] : List ETSCfg), ∃ e : Unit,
        walk_forward_validation ffail [1, 2] 1 cfg = .error e) →
      grid_search ffail [1, 2] [c0] 1 false [] = []) ∧
    (grid_search ffail [1, 2] [c0] 1 false []).length =
      (([c0] : List ETSCfg).filter (fun cfg =>
        (walk_forward_validation ffail [1, 2] 1 cfg).toOption.isSome)).length) :=
  ⟨(fun hc => nomatch hc),
    claim_C7_amended ffail [1, 2] [c0] 1 false [] (fun hc => nomatch hc)⟩

/-- C9: `walk_forward_validation`, `score_model` and `grid_search` never
mutate their inputs.  In the explicit-heap embedding, after any of the three
calls every pre-existing heap cell — in particular the caller's data sequence
at `dataRef` and candidate list at `cfgListRef` — is unchanged: the history
buffer is a freshly allocated copy of the train partition and the only cells
ever written are the fresh history and predictions objects. -/
theorem claim_C9 {E : Type} (f : List ℚ → ETSCfg → Except E ℚ) (h : Heap)
    (dataRef cfgListRef n_test : Nat) (cfg : ETSCfg) (parallel debug : Bool)
    (a : Nat) (ha : a < h.length) :
    ((walk_forward_validation_st f h dataRef n_test cfg).2)[a]? = h[a]? ∧
    ((score_model_st f h dataRef n_test cfg debug).2)[a]? = h[a]? ∧
    ((grid_search_st f h dataRef cfgListRef n_test parallel).2)[a]? = h[a]? :=
  ⟨(walk_forward_validation_st_frame f h dataRef n_test cfg a ha).1,
    (score_model_st_frame f h dataRef n_test cfg debug a ha).1,
    grid_search_st_frame f h dataRef cfgListRef n_test parallel a ha⟩

/-- Witness for C9 on the concrete heap holding the series `[1, 2]` at
address 0 and the candidate list `[c0]` at address 1. -/
theorem claim_C9_witness :
    0 < ([Cell.nums [1, 2], Cell.cfgs [c0]] : Heap).length ∧
    (((walk_forward_validation_st fzero
        [Cell.nums [1, 2], Cell.cfgs [c0]] 0 1 c0).2)[0]? =
      ([Cell.nums [1, 2], Cell.cfgs [c0]] : Heap)[0]? ∧
    ((score_model_st fzero
        [Cell.nums [1, 2], Cell.cfgs [c0]] 0 1 c0 false).2)[0]? =
      ([Cell.nums [1, 2], Cell.cfgs [c0]] : Heap)[0]? ∧
    ((grid_search_st fzero
        [Cell.nums [1, 2], Cell.cfgs [c0]] 0 1 1 false).2)[0]? =
      ([Cell.nums [1, 2], Cell.cfgs [c0]] : Heap)[0]?) :=
  ⟨by decide,
    claim_C9 fzero [Cell.nums [1, 2], Cell.cfgs [c0]] 0 1 1 c0 false false 0
      (by decide)⟩

/-- C10: for every non-empty data sequence, `train_test_split(data, 0)`
returns an empty train partition and the entire sequence as the test
partition, because `data[:-0]` is `data[:0] = []` and `data[-0:]` is
`data[0:] = data`. -/
theorem claim_C10 {α : Type} (data : List α) (_hne : data ≠ []) :
    train_test_split data 0 = ([], data) :=
  train_test_split_zero data

/-- Witness for C10 at `data = [5, 7, 9]`. -/
theorem claim_C10_witness :
    ([5, 7, 9] : List ℚ) ≠ [] ∧
      train_test_split ([5, 7, 9] : List ℚ) 0 = ([], [5, 7, 9]) :=
  ⟨by decide, claim_C10 [5, 7, 9] (by decide)⟩

/-- C1: for `0 < n_test < length(series)`, the walk-forward loop performs
exactly `n_test` sequential steps.  Conjuncts: the test partition has exactly
`n_test` elements (one loop step each); before step `i` the history equals
`train ++ test[0..i-1]` and the step appends the true observation `test[i]`
(the head of `test.drop i`), never the forecast, to the history; and when the
loop completes, the predictions list has exactly `n_test` elements and the
history has grown to `train ++ test`, of length exactly `length(series)`. -/
theorem claim_C1 {E : Type} (f : List ℚ → ETSCfg → Except E ℚ) (data : List ℚ)
    (n_test : Nat) (cfg : ETSCfg) (train test : List ℚ)
    (h1 : 0 < n_test) (h2 : n_test < data.length)
    (hsplit : train_test_split data n_test = (train, test)) :
    test.length = n_test ∧ train.length + n_test = data.length ∧
    (∀ i P, i < n_test →
      wf_loop f cfg (train ++ test.take i) (test.drop i) P =
        match f (train ++ test.take i) cfg with
        | .error e => .error e
        | .ok y =>
          wf_loop f cfg (train ++ test.take (i + 1)) (test.drop (i + 1))
            (P ++ [y])) ∧
    (∀ P H, wf_loop f cfg train test [] = .ok (P, H) →
      P.length = n_test ∧ H = train ++ test ∧ H.length = data.length) := by
  have hmin : min data.length n_test = n_test := by omega
  rw [train_test_split_pos data n_test h1, hmin, Prod.mk.injEq] at hsplit
  obtain ⟨htrain, htest⟩ := hsplit
  have htestlen : test.length = n_test := by
    rw [← htest, List.length_drop]; omega
  have htrainlen : train.length = data.length - n_test := by
    rw [← htrain, List.length_take]; omega
  refine ⟨htestlen, by omega, ?_, ?_⟩
  · intro i P hi
    exact wf_loop_step f cfg train test P i (by omega)
  · intro P H h
    obtain ⟨hlen, hH⟩ := wf_loop_ok_spec f cfg test train [] P H h
    refine ⟨by simpa [htestlen] using hlen, hH, ?_⟩
    rw [hH, List.length_append]
    omega

/-- Witness for C1: `data = [1, 2, 3]`, `n_test = 1`, the constant-zero
forecaster; the split is `([1, 2], [3])` and all four conjuncts hold there. -/
theorem claim_C1_witness :
    (0 < 1 ∧ 1 < ([1, 2, 3] : List ℚ).length ∧
      train_test_split ([1, 2, 3] : List ℚ) 1 = ([1, 2], [3])) ∧
    (([3] : List ℚ).length = 1 ∧ ([1, 2] : List ℚ).length + 1 = ([1, 2, 3] : List ℚ).length ∧
    (∀ i P, i < 1 →
      wf_loop fzero c0 ([1, 2] ++ ([3] : List ℚ).take i) (([3] : List ℚ).drop i) P =
        match fzero ([1, 2] ++ ([3] : List ℚ).take i) c0 with
        | .error e => .error e
        | .ok y =>
          wf_loop fzero c0 ([1, 2] ++ ([3] : List ℚ).take (i + 1))
            (([3] : List ℚ).drop (i + 1)) (P ++ [y])) ∧
    (∀ P H, wf_loop fzero c0 [1, 2] [3] [] = .ok (P, H) →
      P.length = 1 ∧ H = [1, 2] ++ [3] ∧ H.length = ([1, 2, 3] : List ℚ).length)) :=
  ⟨⟨by decide, by decide, by decide⟩,
    claim_C1 fzero [1, 2, 3] 1 c0 [1, 2] [3] (by decide) (by decide) (by decide)⟩

/-- C8: whenever `walk_forward_validation` completes, the error it returns —
`measure_rmse(test, predictions)`, a real square root — is non-negative. -/
theorem claim_C8 {E : Type} (f : List ℚ → ETSCfg → Except E ℚ) (data : List ℚ)
    (n_test : Nat) (cfg : ETSCfg) (r : ℝ)
    (h : walk_forward_validation f data n_test cfg = .ok r) : 0 ≤ r := by
  unfold walk_forward_validation at h
  split at h
  dsimp only at h
  split at h
  · exact absurd h (fun hh => Except.noConfusion hh)
  · rename_i predictions history heq
    cases h
    exact Real.sqrt_nonneg _

/-- Witness for C8: a completed run of the constant-zero forecaster on
`[1, 2]` with `n_test = 1` has a non-negative error. -/
theorem claim_C8_witness :
    walk_forward_validation fzero [1, 2] 1 c0 = .ok (measure_rmse [2] [0]) ∧
      0 ≤ measure_rmse [2] [0] :=
  ⟨rfl, claim_C8 fzero [1, 2] 1 c0 _ rfl⟩

/-- C2: the ranked list returned by `grid_search` (in either execution mode,
over any complete schedule) is a permutation of the present-error score
records, contains no absent (`None`) errors, is non-decreasing in error, and
is stable: for each error value, the records carrying it appear exactly in
their original candidate enumeration order. -/
theorem claim_C2 {E : Type} (f : List ℚ → ETSCfg → Except E ℚ) (data : List ℚ)
    (cfg_list : List ETSCfg) (n_test : Nat) (parallel : Bool) (sched : List Nat)
    (hs : parallel = true → sched.Perm (List.range cfg_list.length)) :
    (grid_search f data cfg_list n_test parallel sched).Perm
      ((cfg_list.map (score_model_run f data n_test)).filter
        (fun r => r.2.isSome)) ∧
    (∀ r ∈ grid_search f data cfg_list n_test parallel sched, r.2.isSome) ∧
    (grid_search f data cfg_list n_test parallel sched).Pairwise
      (fun a b => scoreLE a b = true) ∧
    (∀ e : Option ℝ,
      (grid_search f data cfg_list n_test parallel sched).filter
          (fun r => decide (r.2 = e)) =
        ((cfg_list.map (score_model_run f data n_test)).filter
          (fun r => r.2.isSome)).filter (fun r => decide (r.2 = e))) := by
  rw [grid_search_eq f data cfg_list n_test parallel sched hs]
  refine ⟨List.mergeSort_perm _ scoreLE, ?_, ?_, ?_⟩
  · intro r hr
    have hr2 := List.mem_mergeSort.mp hr
    exact (List.mem_filter.mp hr2).2
  · simpa using List.sorted_mergeSort scoreLE_trans scoreLE_total
      ((cfg_list.map (score_model_run f data n_test)).filter
        (fun r => r.2.isSome))
  · intro e
    have hrefl : ∀ a b : String × Option ℝ, a.2 = e → b.2 = e →
        scoreLE a b = true := by
      intro a b ha hb
      unfold scoreLE
      rw [ha, hb]
      cases e with
      | none => rfl
      | some x => simp
    have hpw : (((cfg_list.map (score_model_run f data n_test)).filter
        (fun r => r.2.isSome)).filter
          (fun r => decide (r.2 = e))).Pairwise (fun a b => scoreLE a b = true) := by
      apply List.pairwise_of_forall_mem_list
      intro a ha b hb
      exact hrefl a b (of_decide_eq_true (List.mem_filter.mp ha).2)
        (of_decide_eq_true (List.mem_filter.mp hb).2)
    have hsubl := List.sublist_mergeSort scoreLE_trans scoreLE_total hpw
      (List.filter_sublist _)
    have hsub2 := hsubl.filter (fun r => decide (r.2 = e))
    rw [List.filter_filter] at hsub2
    simp only [Bool.and_self] at hsub2
    have hlen : (((cfg_list.map (score_model_run f data n_test)).filter
        (fun r => r.2.isSome)).filter (fun r => decide (r.2 = e))).length =
        ((((cfg_list.map (score_model_run f data n_test)).filter
          (fun r => r.2.isSome)).mergeSort scoreLE).filter
            (fun r => decide (r.2 = e))).length :=
      ((List.mergeSort_perm _ scoreLE).filter _).length_eq.symm
    exact (hsub2.eq_of_length hlen).symm

/-- Witness for C2 at a one-candidate sequential search. -/
theorem claim_C2_witness :
    (false = true → ([] : List Nat).Perm (List.range ([c0] : List ETSCfg).length)) ∧
    ((grid_search fzero [1, 2] [c0] 1 false []).Perm
      ((([c0] : List ETSCfg).map (score_model_run fzero [1, 2] 1)).filter
        (fun r => r.2.isSome)) ∧
    (∀ r ∈ grid_search fzero [1, 2] [c0] 1 false [], r.2.isSome) ∧
    (grid_search fzero [1, 2] [c0] 1 false []).Pairwise
      (fun a b => scoreLE a b = true) ∧
    (∀ e : Option ℝ,
      (grid_search fzero [1, 2] [c0] 1 false []).filter
          (fun r => decide (r.2 = e)) =
        ((([c0] : List ETSCfg).map (score_model_run fzero [1, 2] 1)).filter
          (fun r => r.2.isSome)).filter (fun r => decide (r.2 = e)))) :=
  ⟨(fun hc => nomatch hc),
    claim_C2 fzero [1, 2] [c0] 1 false [] (fun hc => nomatch hc)⟩

/-- C5: with any complete schedule, parallel and sequential `grid_search`
return exactly the same ranked list. -/
theorem claim_C5 {E : Type} (f : List ℚ → ETSCfg → Except E ℚ) (data : List ℚ)
    (cfg_list : List ETSCfg) (n_test : Nat) (sched : List Nat)
    (h : sched.Perm (List.range cfg_list.length)) :
    grid_search f data cfg_list n_test true sched =
      grid_search f data cfg_list n_test false sched := by
  rw [grid_search_eq f data cfg_list n_test true sched (fun _ => h),
    grid_search_eq f data cfg_list n_test false sched (fun hc => nomatch hc)]

/-- Witness for C5 at a one-candidate search with the singleton schedule. -/
theorem claim_C5_witness :
    ([0] : List Nat).Perm (List.range 1) ∧
      grid_search fzero [1, 2] [c0] 1 true [0] =
        grid_search fzero [1, 2] [c0] 1 false [0] :=
  ⟨by decide, claim_C5 fzero [1, 2] [c0] 1 [0] (by decide)⟩

/-- C3: `exp_smoothing_configs` returns the full Cartesian product: its
cardinality is the exact product of the six domain sizes (72 for the default
single-period domain `[None]`), and the element at mixed-radix position
`i1·24n + i2·12n + i3·4n + i4·4 + i5·2 + i6` is exactly the combination of
the `i1`-th trend, `i2`-th damped flag, `i3`-th seasonal kind, `i4`-th period,
`i5`-th transform flag and `i6`-th bias flag — the fixed nested enumeration
order trend → damped → seasonal → period → transform → bias, with no
deduplication or pruning. -/
theorem claim_C3 (seasonal : List (Option Nat)) (i1 i2 i3 i4 i5 i6 : Nat)
    (_h1 : i1 < 3) (h2 : i2 < 2) (h3 : i3 < 3) (h4 : i4 < seasonal.length)
    (h5 : i5 < 2) (h6 : i6 < 2) :
    (exp_smoothing_configs seasonal).length =
      3 * 2 * 3 * seasonal.length * 2 * 2 ∧
    (exp_smoothing_configs [none]).length = 72 ∧
    (exp_smoothing_configs seasonal)[i1 * (24 * seasonal.length) +
        i2 * (12 * seasonal.length) + i3 * (4 * seasonal.length) +
        i4 * 4 + i5 * 2 + i6]? =
      (t_params[i1]?).bind (fun t =>
      (d_params[i2]?).bind (fun d =>
      (s_params[i3]?).bind (fun s =>
      (seasonal[i4]?).bind (fun p =>
      (b_params[i5]?).bind (fun b =>
      (r_params[i6]?).map (fun r => (⟨t, d, s, p, b, r⟩ : ETSCfg))))))) := by
  have hk5 : ∀ (t : Option String) (d : Bool) (s : Option String)
      (p : Option Nat) (b : Bool),
      (r_params.map fun r => (⟨t, d, s, p, b, r⟩ : ETSCfg)).length = 2 := by
    intro t d s p b; rfl
  have hk4 : ∀ (t : Option String) (d : Bool) (s : Option String)
      (p : Option Nat),
      (b_params.flatMap fun b =>
        r_params.map fun r => (⟨t, d, s, p, b, r⟩ : ETSCfg)).length = 4 := by
    intro t d s p
    rw [flatMap_length_const _ 2 (hk5 t d s p)]
    rfl
  have hk3 : ∀ (t : Option String) (d : Bool) (s : Option String),
      (seasonal.flatMap fun p => b_params.flatMap fun b =>
        r_params.map fun r => (⟨t, d, s, p, b, r⟩ : ETSCfg)).length =
        4 * seasonal.length := by
    intro t d s
    rw [flatMap_length_const _ 4 (hk4 t d s)]
    ring
  have hk2 : ∀ (t : Option String) (d : Bool),
      (s_params.flatMap fun s => seasonal.flatMap fun p =>
        b_params.flatMap fun b =>
        r_params.map fun r => (⟨t, d, s, p, b, r⟩ : ETSCfg)).length =
        12 * seasonal.length := by
    intro t d
    rw [flatMap_length_const _ (4 * seasonal.length) (hk3 t d)]
    show s_params.length * (4 * seasonal.length) = _
    show 3 * (4 * seasonal.length) = _
    ring
  have hk1 : ∀ t : Option String,
      (d_params.flatMap fun d => s_params.flatMap fun s =>
        seasonal.flatMap fun p => b_params.flatMap fun b =>
        r_params.map fun r => (⟨t, d, s, p, b, r⟩ : ETSCfg)).length =
        24 * seasonal.length := by
    intro t
    rw [flatMap_length_const _ (12 * seasonal.length) (hk2 t)]
    show 2 * (12 * seasonal.length) = _
    ring
  have hb4 : i4 * 4 + 4 ≤ 4 * seasonal.length := by
    have : (i4 + 1) * 4 ≤ seasonal.length * 4 := Nat.mul_le_mul_right _ h4
    calc i4 * 4 + 4 = (i4 + 1) * 4 := by ring
      _ ≤ seasonal.length * 4 := this
      _ = 4 * seasonal.length := by ring
  have hb3 : i3 * (4 * seasonal.length) ≤ 8 * seasonal.length := by
    calc i3 * (4 * seasonal.length) ≤ 2 * (4 * seasonal.length) :=
          Nat.mul_le_mul_right _ (by omega)
      _ = 8 * seasonal.length := by ring
  have hb2 : i2 * (12 * seasonal.length) ≤ 12 * seasonal.length := by
    calc i2 * (12 * seasonal.length) ≤ 1 * (12 * seasonal.length) :=
          Nat.mul_le_mul_right _ (by omega)
      _ = 12 * seasonal.length := by ring
  have hj3 : i4 * 4 + (i5 * 2 + i6) < 4 * seasonal.length := by
    have : i5 * 2 + i6 < 4 := by omega
    linarith
  have hj2 : i3 * (4 * seasonal.length) + (i4 * 4 + (i5 * 2 + i6)) <
      12 * seasonal.length := by linarith
  have hj1 : i2 * (12 * seasonal.length) + (i3 * (4 * seasonal.length) +
      (i4 * 4 + (i5 * 2 + i6))) < 24 * seasonal.length := by linarith
  refine ⟨?_, by rfl, ?_⟩
  · unfold exp_smoothing_configs
    rw [flatMap_length_const _ (24 * seasonal.length) hk1]
    show 3 * (24 * seasonal.length) = _
    ring
  · rw [show i1 * (24 * seasonal.length) + i2 * (12 * seasonal.length) +
        i3 * (4 * seasonal.length) + i4 * 4 + i5 * 2 + i6 =
        i1 * (24 * seasonal.length) + (i2 * (12 * seasonal.length) +
        (i3 * (4 * seasonal.length) + (i4 * 4 + (i5 * 2 + i6)))) from by ring]
    unfold exp_smoothing_configs
    rw [flatMap_getElem? _ (24 * seasonal.length) hk1 t_params i1 _ hj1]
    apply obind_congr
    intro t
    rw [flatMap_getElem? _ (12 * seasonal.length) (hk2 t) d_params i2 _ hj2]
    apply obind_congr
    intro d
    rw [flatMap_getElem? _ (4 * seasonal.length) (hk3 t d) s_params i3 _ hj3]
    apply obind_congr
    intro s
    rw [show i4 * 4 + (i5 * 2 + i6) = i4 * 4 + (i5 * 2 + i6) from rfl,
      flatMap_getElem? _ 4 (hk4 t d s) seasonal i4 _ (by omega)]
    apply obind_congr
    intro p
    rw [show i5 * 2 + i6 = i5 * 2 + i6 from rfl,
      flatMap_getElem? _ 2 (hk5 t d s p) b_params i5 _ h6]
    apply obind_congr
    intro b
    exact List.getElem?_map _ r_params i6

/-- Witness for C3 at the default seasonal domain `[None]` and indices
`(1, 1, 2, 0, 0, 1)`, i.e. position 45 = the configuration
`['mul', False, None, None, True, False]`. -/
theorem claim_C3_witness :
    (1 < 3 ∧ 1 < 2 ∧ 2 < 3 ∧ 0 < ([none] : List (Option Nat)).length ∧
      0 < 2 ∧ 1 < 2) ∧
    ((exp_smoothing_configs [none]).length =
      3 * 2 * 3 * ([none] : List (Option Nat)).length * 2 * 2 ∧
    (exp_smoothing_configs [none]).length = 72 ∧
    (exp_smoothing_configs [none])[1 * (24 * ([none] : List (Option Nat)).length) +
        1 * (12 * ([none] : List (Option Nat)).length) +
        2 * (4 * ([none] : List (Option Nat)).length) +
        0 * 4 + 0 * 2 + 1]? =
      (t_params[1]?).bind (fun t =>
      (d_params[1]?).bind (fun d =>
      (s_params[2]?).bind (fun s =>
      (([none] : List (Option Nat))[0]?).bind (fun p =>
      (b_params[0]?).bind (fun b =>
      (r_params[1]?).map (fun r => (⟨t, d, s, p, b, r⟩ : ETSCfg)))))))) :=
  ⟨⟨by decide, by decide, by decide, by decide, by decide, by decide⟩,
    claim_C3 [none] 1 1 2 0 0 1 (by decide) (by decide) (by decide) (by decide)
      (by decide) (by decide)⟩

/-- C4: `score_model` raises iff debug mode is active.  In non-debug mode the
call never raises: any evaluation exception becomes the pair
`(key, None)` — formally the result is `.ok (key, toOption of the evaluation)`.
In debug mode the evaluation's outcome propagates unmodified: an exception
stays the same exception, a value `r` becomes `(key, some r)`. -/
theorem claim_C4 {E : Type} (f : List ℚ → ETSCfg → Except E ℚ) (data : List ℚ)
    (n_test : Nat) (cfg : ETSCfg) :
    (∀ e : E, score_model f data n_test cfg false ≠ .error e) ∧
    score_model f data n_test cfg false =
      .ok (cfg.key, (walk_forward_validation f data n_test cfg).toOption) ∧
    score_model f data n_test cfg true =
      (walk_forward_validation f data n_test cfg).map
        (fun r => (cfg.key, some r)) := by
  refine ⟨score_model_false_ne_error f data n_test cfg,
    score_model_false_eq f data n_test cfg, ?_⟩
  unfold score_model
  cases h : walk_forward_validation f data n_test cfg <;> simp [Except.map, h]

/-- Witness for C4 at the constant-zero forecaster on `[1, 2]`. -/
theorem claim_C4_witness :
    (∀ e : Unit, score_model fzero [1, 2] 1 c0 false ≠ .error e) ∧
    score_model fzero [1, 2] 1 c0 false =
      .ok (c0.key, (walk_forward_validation fzero [1, 2] 1 c0).toOption) ∧
    score_model fzero [1, 2] 1 c0 true =
      (walk_forward_validation fzero [1, 2] 1 c0).map
        (fun r => (c0.key, some r)) :=
  claim_C4 fzero [1, 2] 1 c0

end ETSModel
